import Mathlib

/-!
Shallow embedding of the WebSocket hub from `websocket.go` (package main).

The Go program keeps a `ClientManager` with a map `clients : map[*Client]bool`,
and three channels `register`, `unregister`, `broadcast` drained one request at
a time by the single goroutine `ClientManager.start`.  Each `Client` owns a
channel `send chan []byte` drained by its own write loop.

The embedding below replaces goroutines and channels by explicit state:

* a `Client` is identified by a natural number;
* the peer set is the list `clients` (kept duplicate-free, like the key set of
  the Go map);
* each client's `send` channel is modelled by its buffered content, a
  `List Message`, together with a capacity `cap` shared by all clients.  A
  non-blocking send (`select`/`default` in `start`) succeeds exactly when the
  buffer holds fewer than `cap` messages.  A blocking send (`conn.send <-
  message` in `ClientManager.send`) always delivers its message in this
  sequential model, but when the buffer is already at capacity the hub would
  have had to wait for the client's write loop, and the target is recorded in
  a `blocked` log;
* `close(conn.send)` is modelled by incrementing a per-client close counter
  `closedCnt` (the buffered content is kept, as in Go, where a reader may
  still drain a closed channel);
* one iteration of the `select` in `ClientManager.start` becomes a step
  function from a hub request (`Event`) to a new state plus logs of the
  deliveries performed, the blocking sends that had to wait, and the channels
  closed.
-/

/-- The wire envelope `Message` from `websocket.go`: three string fields
`Sender`, `Recipient`, `Content`, each serialized with `json:",omitempty"`. -/
structure Message where
  Sender : String := ""
  Recipient : String := ""
  Content : String := ""
deriving DecidableEq

/-- The envelope built in the register branch of `ClientManager.start`:
`Message{Content: "/A new socket has connected."}`. -/
def connectAnnouncement : Message := { Content := "/A new socket has connected." }

/-- The envelope built in the unregister branch of `ClientManager.start`:
`Message{Content: "/A socket has disconnected."}`. -/
def disconnectAnnouncement : Message := { Content := "/A socket has disconnected." }

/-- `encoding/json` marshalling of `Message`: each field carries `omitempty`,
so empty strings are left out of the object. -/
def marshalMessage (m : Message) : String :=
  let fields :=
    (if m.Sender = "" then [] else ["\"sender\":\"" ++ m.Sender ++ "\""]) ++
    (if m.Recipient = "" then [] else ["\"recipient\":\"" ++ m.Recipient ++ "\""]) ++
    (if m.Content = "" then [] else ["\"content\":\"" ++ m.Content ++ "\""])
  "\x7b" ++ String.intercalate "," fields ++ "\x7d"

/-- A connected client, identified by its id (the Go code uses the `*Client`
pointer as map key and a uuid string as `id`; both are opaque identities). -/
abbrev Client := Nat

/-- The hub state: the key set of `manager.clients`, the buffered content of
every client's `send` channel, and how many times each client's `send` channel
has been closed. -/
structure ClientManager where
  clients : List Client
  queue : Client → List Message
  closedCnt : Client → Nat

/-- The manager as initialised in `websocket.go`: empty client map, no
buffered messages, no channel closed. -/
def initManager : ClientManager :=
  ⟨[], fun _ => [], fun _ => 0⟩

/-- A request drained by the `select` in `ClientManager.start`: data on
`manager.register`, `manager.unregister` or `manager.broadcast`. -/
inductive Event where
  | register (c : Client)
  | unregister (c : Client)
  | broadcast (m : Message)
deriving DecidableEq

/-- Result of processing hub requests: the new state, the `(client, message)`
pairs successfully put on outbound queues (in order), the clients on whose
full queue a *blocking* send had to wait, and the clients whose `send` channel
was closed. -/
structure StepOut where
  st : ClientManager
  deliveries : List (Client × Message)
  blocked : List Client
  closes : List Client

/-- The loop body of `ClientManager.send`: walk the clients, skip `ignore`,
and perform the blocking channel send `conn.send <- message` on every other
client.  The message is appended to the target's buffer; a target whose buffer
is already at capacity (the hub would have to wait there) is recorded in the
third, `blocked`, component. -/
def sendLoop (cap : Nat) (m : Message) (ignore : Client) :
    List Client → (Client → List Message) →
    (Client → List Message) × List (Client × Message) × List Client
  | [], q => (q, [], [])
  | c :: cs, q =>
    if c = ignore then
      sendLoop cap m ignore cs q
    else
      let r := sendLoop cap m ignore cs (Function.update q c (q c ++ [m]))
      (r.1, (c, m) :: r.2.1, if cap ≤ (q c).length then c :: r.2.2 else r.2.2)

/-- `ClientManager.send(message, ignore)` from `websocket.go`: blocking
fan-out of `m` to every client in the set other than `ignore`. -/
def ClientManager.send (st : ClientManager) (cap : Nat) (m : Message)
    (ignore : Client) :
    (Client → List Message) × List (Client × Message) × List Client :=
  sendLoop cap m ignore st.clients st.queue

/-- The loop body of the broadcast branch of `ClientManager.start`: for each
client, a `select` with a `default` branch tries a non-blocking send of `m`;
on success the client is kept and the delivery logged, on a full buffer the
client's channel is closed and the client deleted from the set.  Returns the
surviving clients, the updated buffers, the deliveries and the closed
clients. -/
def broadcastLoop (cap : Nat) (m : Message) :
    List Client → (Client → List Message) →
    List Client × (Client → List Message) × List (Client × Message) × List Client
  | [], q => ([], q, [], [])
  | c :: cs, q =>
    if (q c).length < cap then
      let r := broadcastLoop cap m cs (Function.update q c (q c ++ [m]))
      (c :: r.1, r.2.1, (c, m) :: r.2.2.1, r.2.2.2)
    else
      let r := broadcastLoop cap m cs q
      (r.1, r.2.1, r.2.2.1, c :: r.2.2.2)

/-- One iteration of the `select` in `ClientManager.start`:

* `register c` sets `manager.clients[c] = true`, then fans the connection
  announcement to every other client with `manager.send(..., c)`;
* `unregister c` checks membership; when present it closes `c.send`, deletes
  `c`, then fans the disconnection announcement with `manager.send(..., c)`;
  when absent nothing happens;
* `broadcast m` runs the non-blocking fan-out with removal of clients whose
  queue is full.

No branch returns an error: the result is only the new state and the logs. -/
def ClientManager.startStep (st : ClientManager) (cap : Nat) (e : Event) :
    StepOut :=
  match e with
  | .register c =>
    let clients' := if c ∈ st.clients then st.clients else c :: st.clients
    let r := sendLoop cap connectAnnouncement c clients' st.queue
    ⟨⟨clients', r.1, st.closedCnt⟩, r.2.1, r.2.2, []⟩
  | .unregister c =>
    if c ∈ st.clients then
      let clients' := st.clients.erase c
      let r := sendLoop cap disconnectAnnouncement c clients' st.queue
      ⟨⟨clients', r.1, Function.update st.closedCnt c (st.closedCnt c + 1)⟩,
        r.2.1, r.2.2, [c]⟩
    else
      ⟨st, [], [], []⟩
  | .broadcast m =>
    let r := broadcastLoop cap m st.clients st.queue
    ⟨⟨r.1, r.2.1, fun p => st.closedCnt p + (r.2.2.2.count p)⟩,
      r.2.2.1, [], r.2.2.2⟩

/-- The control loop of `ClientManager.start` over a finite request trace:
process each request in order, accumulating the logs. -/
def ClientManager.run (st : ClientManager) (cap : Nat) : List Event → StepOut
  | [] => ⟨st, [], [], []⟩
  | e :: es =>
    let o := st.startStep cap e
    let r := o.st.run cap es
    ⟨r.st, o.deliveries ++ r.deliveries, o.blocked ++ r.blocked,
      o.closes ++ r.closes⟩

/-- Written from the spec, for comparison with the implementation: the set of
peers admitted and not subsequently removed, computed from the admit/remove
operations alone (broadcasts are ignored). -/
def admittedNotRemoved : List Client → List Event → List Client
  | s, [] => s
  | s, Event.register c :: es => admittedNotRemoved (if c ∈ s then s else c :: s) es
  | s, Event.unregister c :: es => admittedNotRemoved (s.erase c) es
  | s, Event.broadcast _ :: es => admittedNotRemoved s es

/-- `broadcastSafe st cap es` holds when every broadcast of the trace `es`,
at its point of execution, finds no client with a full outbound queue (so the
broadcast removes nobody). -/
def broadcastSafe (st : ClientManager) (cap : Nat) : List Event → Bool
  | [] => true
  | e :: es =>
    (match e with
     | Event.broadcast _ => st.clients.all fun c => (st.queue c).length < cap
     | _ => true) &&
    broadcastSafe (st.startStep cap e).st cap es

/-- What the write loop of a client does at the transport. -/
inductive WriteAction where
  | writeText (m : Message)
  | writeClose
  | removeRequest
deriving DecidableEq

/-- `Client.write` from `websocket.go`, driven by the successive results of
`message, ok := <-c.send`: `some m` is a received message (written to the
transport as a text frame), `none` means the channel was closed by the hub
(a close frame is written and the loop returns).  `wres` gives the result of
each transport write, which the Go code discards (`WriteMessage`'s error is
ignored), so it influences nothing.  The boolean records whether the loop
returned after consuming the given receipts; `removeRequest` is in the action
alphabet so that "the write loop never asks the hub for a removal" is a
statement about its output. -/
def Client.write (wres : Message → Bool) : List (Option Message) → List WriteAction × Bool
  | [] => ([], false)
  | none :: _ => ([WriteAction.writeClose], true)
  | some m :: rest =>
    let r := Client.write wres rest
    (WriteAction.writeText m :: r.1, r.2)

/-- A user envelope as the read loop of a client with id "A" builds it for the
payload "hi": `Message{Sender: c.id, Content: string(message)}`. -/
def stressMsg : Message := { Sender := "A", Content := "hi" }

/-- A three-client hub state for the stress scenario: with capacity 1, client
0's queue is saturated (it already buffers one message) while clients 1 and 2
have room. -/
def stressState : ClientManager :=
  ⟨[0, 1, 2], fun c => if c = 0 then [{ Content := "x" }] else [], fun _ => 0⟩

/-- A two-client hub state: with capacity 1, client 0's queue is saturated
while client 1 has room. -/
def smallState : ClientManager :=
  ⟨[0, 1], fun c => if c = 0 then [{ Content := "x" }] else [], fun _ => 0⟩

/-! ### Lemmas about the blocking fan-out `sendLoop` -/

theorem sendLoop_queue_of_not_mem (cap : Nat) (m : Message) (ig p : Client) :
    ∀ (cs : List Client) (q : Client → List Message), p ∉ cs →
      (sendLoop cap m ig cs q).1 p = q p := by
  intro cs
  induction cs with
  | nil => intro q _; rfl
  | cons c cs ih =>
    intro q hp
    simp only [List.mem_cons, not_or] at hp
    by_cases hc : c = ig
    · simp only [sendLoop, if_pos hc]
      exact ih q hp.2
    · simp only [sendLoop, if_neg hc]
      rw [ih _ hp.2, Function.update_noteq hp.1]

theorem sendLoop_queue_ignore (cap : Nat) (m : Message) (ig : Client) :
    ∀ (cs : List Client) (q : Client → List Message),
      (sendLoop cap m ig cs q).1 ig = q ig := by
  intro cs
  induction cs with
  | nil => intro q; rfl
  | cons c cs ih =>
    intro q
    by_cases hc : c = ig
    · simp only [sendLoop, if_pos hc]
      exact ih q
    · simp only [sendLoop, if_neg hc]
      rw [ih, Function.update_noteq (fun h => hc h.symm)]

theorem sendLoop_queue_of_mem (cap : Nat) (m : Message) (ig p : Client) :
    ∀ (cs : List Client) (q : Client → List Message), cs.Nodup → p ∈ cs →
      p ≠ ig → (sendLoop cap m ig cs q).1 p = q p ++ [m] := by
  intro cs
  induction cs with
  | nil => intro q _ h; exact absurd h (List.not_mem_nil p)
  | cons c cs ih =>
    intro q hnd hp hpig
    rw [List.nodup_cons] at hnd
    rcases List.mem_cons.mp hp with rfl | hp'
    · simp only [sendLoop, if_neg hpig]
      rw [sendLoop_queue_of_not_mem cap m ig p cs _ hnd.1, Function.update_same]
    · by_cases hc : c = ig
      · simp only [sendLoop, if_pos hc]
        exact ih q hnd.2 hp' hpig
      · simp only [sendLoop, if_neg hc]
        have hpc : p ≠ c := fun h => hnd.1 (h ▸ hp')
        rw [ih _ hnd.2 hp' hpig, Function.update_noteq hpc]

theorem sendLoop_deliveries_mem (cap : Nat) (m : Message) (ig p : Client)
    (m' : Message) :
    ∀ (cs : List Client) (q : Client → List Message),
      (p, m') ∈ (sendLoop cap m ig cs q).2.1 → p ∈ cs ∧ p ≠ ig ∧ m' = m := by
  intro cs
  induction cs with
  | nil => intro q h; exact absurd h (List.not_mem_nil _)
  | cons c cs ih =>
    intro q h
    by_cases hc : c = ig
    · simp only [sendLoop, if_pos hc] at h
      obtain ⟨h1, h2, h3⟩ := ih _ h
      exact ⟨List.mem_cons_of_mem c h1, h2, h3⟩
    · simp only [sendLoop, if_neg hc, List.mem_cons] at h
      rcases h with h | h
      · obtain ⟨rfl, rfl⟩ := Prod.mk.injEq .. ▸ h
        exact ⟨List.mem_cons_self .., hc, rfl⟩
      · obtain ⟨h1, h2, h3⟩ := ih _ h
        exact ⟨List.mem_cons_of_mem c h1, h2, h3⟩

theorem sendLoop_deliveries_count (cap : Nat) (m : Message) (ig p : Client) :
    ∀ (cs : List Client) (q : Client → List Message), cs.Nodup → p ∈ cs →
      p ≠ ig → (sendLoop cap m ig cs q).2.1.count (p, m) = 1 := by
  intro cs
  induction cs with
  | nil => intro q _ h; exact absurd h (List.not_mem_nil p)
  | cons c cs ih =>
    intro q hnd hp hpig
    rw [List.nodup_cons] at hnd
    rcases List.mem_cons.mp hp with rfl | hp'
    · simp only [sendLoop, if_neg hpig, List.count_cons]
      have : (sendLoop cap m ig cs (Function.update q p (q p ++ [m]))).2.1.count (p, m) = 0 := by
        rw [List.count_eq_zero]
        intro hmem
        exact hnd.1 (sendLoop_deliveries_mem cap m ig p m cs _ hmem).1
      simp [this]
    · by_cases hc : c = ig
      · simp only [sendLoop, if_pos hc]
        exact ih _ hnd.2 hp' hpig
      · have hpc : p ≠ c := fun h => hnd.1 (h ▸ hp')
        simp only [sendLoop, if_neg hc, List.count_cons]
        rw [ih _ hnd.2 hp' hpig]
        have : ((c, m) == (p, m)) = false := by
          simp [Prod.ext_iff]
          intro h
          exact absurd h.symm hpc
        simp [this]

theorem sendLoop_blocked_of_full (cap : Nat) (m : Message) (ig p : Client) :
    ∀ (cs : List Client) (q : Client → List Message), p ∈ cs → p ≠ ig →
      cap ≤ (q p).length → p ∈ (sendLoop cap m ig cs q).2.2 := by
  intro cs
  induction cs with
  | nil => intro q h; exact absurd h (List.not_mem_nil p)
  | cons c cs ih =>
    intro q hp hpig hfull
    rcases List.mem_cons.mp hp with rfl | hp'
    · simp only [sendLoop, if_neg hpig, if_pos hfull]
      exact List.mem_cons_self ..
    · by_cases hc : c = ig
      · simp only [sendLoop, if_pos hc]
        exact ih q hp' hpig hfull
      · by_cases hpc : p = c
        · subst hpc
          simp only [sendLoop, if_neg hc, if_pos hfull]
          exact List.mem_cons_self ..
        · have hq : (Function.update q c (q c ++ [m]) p).length = (q p).length := by
            rw [Function.update_noteq hpc]
          simp only [sendLoop, if_neg hc]
          have := ih (Function.update q c (q c ++ [m])) hp' hpig (hq ▸ hfull)
          by_cases hb : cap ≤ (q c).length
          · simp only [if_pos hb]
            exact List.mem_cons_of_mem c this
          · simp only [if_neg hb]
            exact this

/-! ### Lemmas about the non-blocking broadcast fan-out `broadcastLoop` -/

theorem broadcastLoop_clients_sublist (cap : Nat) (m : Message) :
    ∀ (cs : List Client) (q : Client → List Message),
      (broadcastLoop cap m cs q).1.Sublist cs := by
  intro cs
  induction cs with
  | nil => intro q; exact List.Sublist.refl _
  | cons c cs ih =>
    intro q
    by_cases hc : (q c).length < cap
    · simp only [broadcastLoop, if_pos hc]
      exact List.Sublist.cons₂ c (ih _)
    · simp only [broadcastLoop, if_neg hc]
      exact List.Sublist.cons c (ih q)

theorem broadcastLoop_closes_mem (cap : Nat) (m : Message) (p : Client) :
    ∀ (cs : List Client) (q : Client → List Message),
      p ∈ (broadcastLoop cap m cs q).2.2.2 → p ∈ cs := by
  intro cs
  induction cs with
  | nil => intro q h; exact absurd h (List.not_mem_nil _)
  | cons c cs ih =>
    intro q h
    by_cases hc : (q c).length < cap
    · simp only [broadcastLoop, if_pos hc] at h
      exact List.mem_cons_of_mem c (ih _ h)
    · simp only [broadcastLoop, if_neg hc, List.mem_cons] at h
      rcases h with rfl | h
      · exact List.mem_cons_self ..
      · exact List.mem_cons_of_mem c (ih _ h)

theorem broadcastLoop_deliveries_mem (cap : Nat) (m : Message) (p : Client)
    (m' : Message) :
    ∀ (cs : List Client) (q : Client → List Message),
      (p, m') ∈ (broadcastLoop cap m cs q).2.2.1 → p ∈ cs ∧ m' = m := by
  intro cs
  induction cs with
  | nil => intro q h; exact absurd h (List.not_mem_nil _)
  | cons c cs ih =>
    intro q h
    by_cases hc : (q c).length < cap
    · simp only [broadcastLoop, if_pos hc, List.mem_cons] at h
      rcases h with h | h
      · obtain ⟨rfl, rfl⟩ := Prod.mk.injEq .. ▸ h
        exact ⟨List.mem_cons_self .., rfl⟩
      · obtain ⟨h1, h2⟩ := ih _ h
        exact ⟨List.mem_cons_of_mem c h1, h2⟩
    · simp only [broadcastLoop, if_neg hc] at h
      obtain ⟨h1, h2⟩ := ih _ h
      exact ⟨List.mem_cons_of_mem c h1, h2⟩

theorem broadcastLoop_count (cap : Nat) (m : Message) (p : Client) :
    ∀ (cs : List Client) (q : Client → List Message),
      (broadcastLoop cap m cs q).1.count p
        + (broadcastLoop cap m cs q).2.2.2.count p = cs.count p := by
  intro cs
  induction cs with
  | nil => intro q; rfl
  | cons c cs ih =>
    intro q
    by_cases hc : (q c).length < cap
    · simp only [broadcastLoop, if_pos hc, List.count_cons]
      rw [Nat.add_right_comm, ih]
    · simp only [broadcastLoop, if_neg hc, List.count_cons]
      rw [← Nat.add_assoc, ih]

theorem broadcastLoop_full (cap : Nat) (m : Message) (p : Client) :
    ∀ (cs : List Client) (q : Client → List Message), cs.Nodup → p ∈ cs →
      cap ≤ (q p).length →
      p ∉ (broadcastLoop cap m cs q).1 ∧
        p ∈ (broadcastLoop cap m cs q).2.2.2 ∧
        (∀ m', (p, m') ∉ (broadcastLoop cap m cs q).2.2.1) := by
  intro cs
  induction cs with
  | nil => intro q _ h; exact absurd h (List.not_mem_nil p)
  | cons c cs ih =>
    intro q hnd hp hfull
    rw [List.nodup_cons] at hnd
    rcases List.mem_cons.mp hp with rfl | hp'
    · have hc : ¬(q p).length < cap := Nat.not_lt.mpr hfull
      simp only [broadcastLoop, if_neg hc]
      refine ⟨?_, List.mem_cons_self .., ?_⟩
      · intro hmem
        exact hnd.1 ((broadcastLoop_clients_sublist cap m cs q).mem hmem)
      · intro m' hmem
        exact hnd.1 (broadcastLoop_deliveries_mem cap m p m' cs q hmem).1
    · have hpc : p ≠ c := fun h => hnd.1 (h ▸ hp')
      by_cases hc : (q c).length < cap
      · have hq : (Function.update q c (q c ++ [m]) p).length = (q p).length := by
          rw [Function.update_noteq hpc]
        obtain ⟨h1, h2, h3⟩ := ih (Function.update q c (q c ++ [m])) hnd.2 hp' (hq ▸ hfull)
        simp only [broadcastLoop, if_pos hc]
        refine ⟨?_, h2, ?_⟩
        · intro hmem
          rcases List.mem_cons.mp hmem with h | h
          · exact hpc h
          · exact h1 h
        · intro m' hmem
          rcases List.mem_cons.mp hmem with h | h
          · exact hpc (congrArg Prod.fst h)
          · exact h3 m' h
      · obtain ⟨h1, h2, h3⟩ := ih q hnd.2 hp' hfull
        simp only [broadcastLoop, if_neg hc]
        exact ⟨h1, List.mem_cons_of_mem c h2, h3⟩

theorem broadcastLoop_roomy (cap : Nat) (m : Message) :
    ∀ (cs : List Client) (q : Client → List Message), cs.Nodup →
      (∀ c ∈ cs, (q c).length < cap) →
      (broadcastLoop cap m cs q).1 = cs ∧
        (broadcastLoop cap m cs q).2.2.2 = [] ∧
        (broadcastLoop cap m cs q).2.2.1 = cs.map fun c => (c, m) := by
  intro cs
  induction cs with
  | nil => intro q _ _; exact ⟨rfl, rfl, rfl⟩
  | cons c cs ih =>
    intro q hnd hroom
    rw [List.nodup_cons] at hnd
    have hc : (q c).length < cap := hroom c (List.mem_cons_self ..)
    have hroom' : ∀ x ∈ cs, ((Function.update q c (q c ++ [m])) x).length < cap := by
      intro x hx
      have hxc : x ≠ c := fun h => hnd.1 (h ▸ hx)
      rw [Function.update_noteq hxc]
      exact hroom x (List.mem_cons_of_mem c hx)
    obtain ⟨h1, h2, h3⟩ := ih (Function.update q c (q c ++ [m])) hnd.2 hroom'
    simp only [broadcastLoop, if_pos hc, h1, h2, h3, List.map_cons]
    exact ⟨trivial, trivial, trivial⟩

theorem broadcastLoop_single_full (cap : Nat) (m : Message) (s : Client) :
    ∀ (cs : List Client) (q : Client → List Message), cs.Nodup → s ∈ cs →
      cap ≤ (q s).length → (∀ c ∈ cs, c ≠ s → (q c).length < cap) →
      (broadcastLoop cap m cs q).1 = cs.erase s ∧
        (broadcastLoop cap m cs q).2.2.2 = [s] ∧
        (broadcastLoop cap m cs q).2.2.1 = (cs.erase s).map fun c => (c, m) := by
  intro cs
  induction cs with
  | nil => intro q _ h; exact absurd h (List.not_mem_nil s)
  | cons c cs ih =>
    intro q hnd hs hfull hroom
    rw [List.nodup_cons] at hnd
    rcases List.mem_cons.mp hs with rfl | hs'
    · have hc : ¬(q s).length < cap := Nat.not_lt.mpr hfull
      have hroom' : ∀ x ∈ cs, (q x).length < cap := by
        intro x hx
        have hxs : x ≠ s := fun h => hnd.1 (h ▸ hx)
        exact hroom x (List.mem_cons_of_mem s hx) hxs
      obtain ⟨h1, h2, h3⟩ := broadcastLoop_roomy cap m cs q hnd.2 hroom'
      simp only [broadcastLoop, if_neg hc, h1, h2, h3, List.erase_cons_head]
      exact ⟨trivial, trivial, trivial⟩
    · have hcs : c ≠ s := fun h => hnd.1 (h ▸ hs')
      have hc : (q c).length < cap := hroom c (List.mem_cons_self ..) hcs
      have hq : (Function.update q c (q c ++ [m]) s).length = (q s).length := by
        rw [Function.update_noteq (fun h => hcs h.symm)]
      have hroom' : ∀ x ∈ cs, x ≠ s →
          ((Function.update q c (q c ++ [m])) x).length < cap := by
        intro x hx hxs
        have hxc : x ≠ c := fun h => hnd.1 (h ▸ hx)
        rw [Function.update_noteq hxc]
        exact hroom x (List.mem_cons_of_mem c hx) hxs
      obtain ⟨h1, h2, h3⟩ := ih (Function.update q c (q c ++ [m])) hnd.2 hs'
        (hq ▸ hfull) hroom'
      have hec : (c :: cs).erase s = c :: cs.erase s :=
        List.erase_cons_tail (by simp [hcs])
      simp only [broadcastLoop, if_pos hc, h1, h2, h3, hec, List.map_cons]
      exact ⟨trivial, trivial, trivial⟩

/-! ### Invariants of the control loop -/

theorem startStep_clients_nodup (st : ClientManager) (cap : Nat) (e : Event)
    (h : st.clients.Nodup) : (st.startStep cap e).st.clients.Nodup := by
  match e with
  | .register c =>
    by_cases hc : c ∈ st.clients
    · simpa [ClientManager.startStep, hc] using h
    · have hcl : (st.startStep cap (Event.register c)).st.clients = c :: st.clients := by
        simp [ClientManager.startStep, hc]
      rw [hcl, List.nodup_cons]
      exact ⟨hc, h⟩
  | .unregister c =>
    by_cases hc : c ∈ st.clients
    · simp only [ClientManager.startStep, if_pos hc]
      exact h.erase c
    · simp only [ClientManager.startStep, if_neg hc]
      exact h
  | .broadcast m =>
    simp only [ClientManager.startStep]
    exact (broadcastLoop_clients_sublist cap m st.clients st.queue).nodup h

theorem run_clients_nodup (cap : Nat) :
    ∀ (es : List Event) (st : ClientManager), st.clients.Nodup →
      (st.run cap es).st.clients.Nodup := by
  intro es
  induction es with
  | nil => intro st h; exact h
  | cons e es ih =>
    intro st h
    exact ih _ (startStep_clients_nodup st cap e h)

theorem startStep_unregister_of_not_mem (st : ClientManager) (cap : Nat)
    (c : Client) (h : c ∉ st.clients) :
    st.startStep cap (Event.unregister c) = ⟨st, [], [], []⟩ := by
  simp [ClientManager.startStep, h]

theorem startStep_unregister_not_mem (st : ClientManager) (cap : Nat)
    (c : Client) (h : st.clients.Nodup) :
    c ∉ (st.startStep cap (Event.unregister c)).st.clients := by
  by_cases hc : c ∈ st.clients
  · simp only [ClientManager.startStep, if_pos hc]
    exact h.not_mem_erase
  · simp only [ClientManager.startStep, if_neg hc]
    exact hc

theorem startStep_close_register_bound (st : ClientManager) (cap : Nat)
    (e : Event) (p : Client) :
    (st.startStep cap e).st.closedCnt p + (st.startStep cap e).st.clients.count p ≤
      st.closedCnt p + st.clients.count p +
        (if e = Event.register p then 1 else 0) := by
  match e with
  | .register c =>
    simp only [ClientManager.startStep]
    by_cases hc : c ∈ st.clients
    · simp only [if_pos hc]
      split <;> omega
    · simp only [if_neg hc]
      by_cases hcp : c = p
      · subst hcp
        have h4 : (if Event.register c = Event.register c then 1 else 0) = 1 :=
          if_pos rfl
        have h5 : List.count c (c :: st.clients) = List.count c st.clients + 1 := by
          simp [List.count_cons]
        rw [h4, h5]
        omega
      · have h4 : (if Event.register c = Event.register p then 1 else 0) = 0 :=
          if_neg (by simp [hcp])
        have h5 : List.count p (c :: st.clients) = List.count p st.clients := by
          simp [List.count_cons, hcp]
        rw [h4, h5]
        omega
  | .unregister c =>
    by_cases hc : c ∈ st.clients
    · simp only [ClientManager.startStep, if_pos hc]
      by_cases hcp : p = c
      · subst hcp
        have hpos : 0 < st.clients.count p := List.count_pos_iff.mpr hc
        rw [Function.update_same, List.count_erase_self]
        split <;> omega
      · rw [Function.update_noteq hcp, List.count_erase_of_ne hcp]
        split <;> omega
    · simp only [ClientManager.startStep, if_neg hc]
      split <;> omega
  | .broadcast m =>
    simp only [ClientManager.startStep]
    have := broadcastLoop_count cap m p st.clients st.queue
    split <;> omega

theorem run_close_register_bound (cap : Nat) (p : Client) :
    ∀ (es : List Event) (st : ClientManager),
      (st.run cap es).st.closedCnt p + (st.run cap es).st.clients.count p ≤
        st.closedCnt p + st.clients.count p + es.count (Event.register p) := by
  intro es
  induction es with
  | nil => intro st; simp [ClientManager.run]
  | cons e es ih =>
    intro st
    have h1 := ih (st.startStep cap e).st
    have h2 := startStep_close_register_bound st cap e p
    have h3 : (e :: es).count (Event.register p) =
        es.count (Event.register p) + (if e = Event.register p then 1 else 0) := by
      rw [List.count_cons]
      congr 1
      simp [beq_iff_eq]
    show ((st.startStep cap e).st.run cap es).st.closedCnt p +
        ((st.startStep cap e).st.run cap es).st.clients.count p ≤ _
    rw [h3]
    omega

theorem run_clients_eq_admittedNotRemoved (cap : Nat) :
    ∀ (es : List Event) (st : ClientManager), st.clients.Nodup →
      broadcastSafe st cap es = true →
      (st.run cap es).st.clients = admittedNotRemoved st.clients es := by
  intro es
  induction es with
  | nil => intro st _ _; rfl
  | cons e es ih =>
    intro st hnd hsafe
    simp only [broadcastSafe, Bool.and_eq_true] at hsafe
    have hnd' := startStep_clients_nodup st cap e hnd
    have hrec := ih _ hnd' hsafe.2
    match e with
    | .register c =>
      have hcl : (st.startStep cap (Event.register c)).st.clients =
          (if c ∈ st.clients then st.clients else c :: st.clients) := rfl
      show ((st.startStep cap (Event.register c)).st.run cap es).st.clients = _
      rw [hrec, hcl]
      rfl
    | .unregister c =>
      by_cases hc : c ∈ st.clients
      · have hcl : (st.startStep cap (Event.unregister c)).st.clients =
            st.clients.erase c := by
          simp [ClientManager.startStep, hc]
        show ((st.startStep cap (Event.unregister c)).st.run cap es).st.clients = _
        rw [hrec, hcl]
        rfl
      · have hcl : (st.startStep cap (Event.unregister c)).st.clients = st.clients := by
          simp [ClientManager.startStep, hc]
        show ((st.startStep cap (Event.unregister c)).st.run cap es).st.clients = _
        rw [hrec, hcl]
        show admittedNotRemoved st.clients es = admittedNotRemoved (st.clients.erase c) es
        rw [List.erase_of_not_mem hc]
    | .broadcast m =>
      have hroom : ∀ x ∈ st.clients, (st.queue x).length < cap := by
        intro x hx
        have := hsafe.1
        simp only [List.all_eq_true, decide_eq_true_eq] at this
        exact this x hx
      have hcl : (st.startStep cap (Event.broadcast m)).st.clients = st.clients :=
        (broadcastLoop_roomy cap m st.clients st.queue hnd hroom).1
      show ((st.startStep cap (Event.broadcast m)).st.run cap es).st.clients = _
      rw [hrec, hcl]
      rfl

theorem count_pair_map (m : Message) (p : Client) :
    ∀ cs : List Client, ((cs.map fun c => (c, m)).count (p, m)) = cs.count p := by
  intro cs
  induction cs with
  | nil => rfl
  | cons c cs ih =>
    by_cases hcp : c = p
    · subst hcp
      simp [List.count_cons, ih]
    · simp [List.count_cons, ih, hcp, Prod.ext_iff]

/-! ### The claims -/

/-- Claim C1, as stated, is false: the claim says every delivery the hub
performs — in the broadcast path and in the admission/disconnect announcement
fan-out alike — is a non-blocking enqueue attempt, i.e. the run's `blocked`
log is always empty.  Concretely, with capacity 1: client 0 registers, a
broadcast fills client 0's queue, then client 1 registers; the connection
announcement fan-out of `ClientManager.send` performs the blocking channel
send `conn.send <- message` on client 0's full queue, and the hub waits
there: the `blocked` log of the run is `[0]`, not `[]`. -/
theorem claim1_counterexample :
    (initManager.run 1
      [Event.register 0, Event.broadcast { Content := "x" }, Event.register 1]).blocked
      = [0] ∧
    ([0] : List Client) ≠ [] := by
  exact ⟨by decide, by decide⟩

/-- Claim C1, amended: only the broadcast path is non-blocking — a broadcast
step never records a blocked target — while the announcement fan-out
`ClientManager.send` performs blocking enqueues, so any member of the peer
set other than the excluded one whose queue is full when the fan-out reaches
it makes the hub wait (it lands in the `blocked` log). -/
theorem claim1_amended (cap : Nat) (st : ClientManager) (m : Message) :
    (st.startStep cap (Event.broadcast m)).blocked = [] ∧
    ∀ (ig c : Client), c ∈ st.clients → c ≠ ig → cap ≤ (st.queue c).length →
      c ∈ (st.send cap m ig).2.2 := by
  constructor
  · rfl
  · intro ig c hc hcig hfull
    exact sendLoop_blocked_of_full cap m ig c st.clients st.queue hc hcig hfull

/-- Witness for C1 amended, at capacity 1 on `smallState` (client 0's queue
full): a broadcast blocks nobody, and the announcement fan-out that ignores
client 1 waits on client 0. -/
theorem claim1_witness :
    (smallState.startStep 1 (Event.broadcast stressMsg)).blocked = [] ∧
    0 ∈ (smallState.send 1 connectAnnouncement 1).2.2 :=
  ⟨(claim1_amended 1 smallState stressMsg).1,
    (claim1_amended 1 smallState connectAnnouncement).2 1 0 (by decide) (by decide)
      (by decide)⟩

/-- Claim C2, as stated, is false: it asks that for every sequence of admit
and remove operations the resulting peer set equal the peers admitted and not
subsequently removed *regardless of how the operations interleave with
broadcasts*.  But a broadcast removes every peer whose queue is full: with
capacity 0 (the unbuffered channel of the source), after `register 0` a
single broadcast deletes client 0, which was admitted and never removed. -/
theorem claim2_counterexample :
    (initManager.run 0 [Event.register 0, Event.broadcast { Content := "x" }]).st.clients
      ≠ admittedNotRemoved [] [Event.register 0, Event.broadcast { Content := "x" }] := by
  decide

/-- Claim C2, amended: provided no broadcast of the trace finds a peer with a
full outbound queue (so no backpressure removal fires), the peer set produced
by the serialized control loop equals exactly the peers admitted and not
subsequently removed, and no peer appears twice. -/
theorem claim2_amended (cap : Nat) (es : List Event)
    (hsafe : broadcastSafe initManager cap es = true) :
    (initManager.run cap es).st.clients = admittedNotRemoved [] es ∧
    (initManager.run cap es).st.clients.Nodup := by
  constructor
  · exact run_clients_eq_admittedNotRemoved cap es initManager List.nodup_nil hsafe
  · exact run_clients_nodup cap es initManager List.nodup_nil

/-- Witness for C2 amended: at capacity 2, admit 0, admit 1, remove 0, then a
broadcast; the trace is broadcast-safe and the final peer set is `[1]`, the
peers admitted and not removed, without duplicates. -/
theorem claim2_witness :
    (initManager.run 2
        [Event.register 0, Event.register 1, Event.unregister 0,
          Event.broadcast { Content := "x" }]).st.clients =
      admittedNotRemoved []
        [Event.register 0, Event.register 1, Event.unregister 0,
          Event.broadcast { Content := "x" }] ∧
    (initManager.run 2
        [Event.register 0, Event.register 1, Event.unregister 0,
          Event.broadcast { Content := "x" }]).st.clients.Nodup :=
  claim2_amended 2
    [Event.register 0, Event.register 1, Event.unregister 0,
      Event.broadcast { Content := "x" }] (by decide)

/-- Claim C3, confirmed: a peer whose outbound queue is full when a broadcast
reaches it is synchronously handled by that same broadcast pass — its channel
is closed (the close counter increments), it is deleted from the peer set, and
it receives no copy of the envelope.  `startStep` returns no error component
at all, so no error reaches the broadcast's caller. -/
theorem claim3_full_queue_removed (cap : Nat) (st : ClientManager)
    (m : Message) (c : Client) (hnd : st.clients.Nodup) (hc : c ∈ st.clients)
    (hfull : cap ≤ (st.queue c).length) :
    c ∉ (st.startStep cap (Event.broadcast m)).st.clients ∧
    c ∈ (st.startStep cap (Event.broadcast m)).closes ∧
    (st.startStep cap (Event.broadcast m)).st.closedCnt c = st.closedCnt c + 1 ∧
    ∀ m', (c, m') ∉ (st.startStep cap (Event.broadcast m)).deliveries := by
  obtain ⟨h1, h2, h3⟩ := broadcastLoop_full cap m c st.clients st.queue hnd hc hfull
  refine ⟨h1, h2, ?_, h3⟩
  have hcount := broadcastLoop_count cap m c st.clients st.queue
  have hone : List.count c st.clients = 1 := List.count_eq_one_of_mem hnd hc
  have hzero : List.count c (broadcastLoop cap m st.clients st.queue).1 = 0 :=
    List.count_eq_zero.mpr h1
  show st.closedCnt c + (broadcastLoop cap m st.clients st.queue).2.2.2.count c =
    st.closedCnt c + 1
  omega

/-- Witness for C3 at capacity 1 on `smallState`: a broadcast of `stressMsg`
removes and closes saturated client 0 and delivers nothing to it. -/
theorem claim3_witness :
    0 ∉ (smallState.startStep 1 (Event.broadcast stressMsg)).st.clients ∧
    0 ∈ (smallState.startStep 1 (Event.broadcast stressMsg)).closes ∧
    (smallState.startStep 1 (Event.broadcast stressMsg)).st.closedCnt 0 =
      smallState.closedCnt 0 + 1 ∧
    ∀ m', (0, m') ∉ (smallState.startStep 1 (Event.broadcast stressMsg)).deliveries :=
  claim3_full_queue_removed 1 smallState stressMsg 0 (by decide) (by decide) (by decide)

/-- Claim C4, confirmed: removing the same peer twice in a row is the same as
removing it once — the second unregister step leaves the state untouched,
delivers no disconnect announcement, waits on nobody and closes no queue
(its output is exactly the no-op `⟨state, [], [], []⟩`), because the first
step left the peer outside the set and the unregister handler is guarded by
membership.  This covers the duplicate removal triggers fired by the read
loop: one inline on read error and one from its deferred cleanup. -/
theorem claim4_remove_idempotent (cap : Nat) (st : ClientManager) (c : Client)
    (hnd : st.clients.Nodup) :
    (st.startStep cap (Event.unregister c)).st.startStep cap (Event.unregister c) =
      ⟨(st.startStep cap (Event.unregister c)).st, [], [], []⟩ :=
  startStep_unregister_of_not_mem _ cap c (startStep_unregister_not_mem st cap c hnd)

/-- Witness for C4 on `smallState`: unregistering client 0 twice; the second
step is the silent no-op. -/
theorem claim4_witness :
    (smallState.startStep 1 (Event.unregister 0)).st.startStep 1 (Event.unregister 0) =
      ⟨(smallState.startStep 1 (Event.unregister 0)).st, [], [], []⟩ :=
  claim4_remove_idempotent 1 smallState 0 (by decide)

/-- Claim C5, as stated, is false on its announcement part: in the stress
scenario (three peers at capacity 1, peer 0 saturated) a broadcast does
remove peer 0 and the other two peers do receive the message, but *no
disconnect announcement for the removed peer is ever delivered*: the
broadcast branch closes and deletes without announcing, and the later
unregister request for peer 0 (from its read loop) finds the peer already
absent and is a silent no-op.  After running the broadcast and the
unregister, neither remaining peer has received `disconnectAnnouncement`. -/
theorem claim5_counterexample :
    (ClientManager.run stressState 1
      [Event.broadcast stressMsg, Event.unregister 0]).st.clients = [1, 2] ∧
    (1, disconnectAnnouncement) ∉
      (ClientManager.run stressState 1
        [Event.broadcast stressMsg, Event.unregister 0]).deliveries ∧
    (2, disconnectAnnouncement) ∉
      (ClientManager.run stressState 1
        [Event.broadcast stressMsg, Event.unregister 0]).deliveries := by
  exact ⟨by decide, by decide, by decide⟩

/-- Claim C5, amended: with N peers connected and exactly one peer saturated,
a single broadcast removes that one peer (and only it), delivers exactly one
copy of the message to each of the other N-1 peers and none to the removed
one, and no disconnect announcement is produced for the removed peer — the
subsequent remove request fired by its read loop is a silent no-op delivering
nothing. -/
theorem claim5_amended (cap : Nat) (st : ClientManager) (m : Message)
    (s : Client) (hnd : st.clients.Nodup) (hs : s ∈ st.clients)
    (hfull : cap ≤ (st.queue s).length)
    (hroom : ∀ c ∈ st.clients, c ≠ s → (st.queue c).length < cap) :
    (st.startStep cap (Event.broadcast m)).st.clients = st.clients.erase s ∧
    (st.startStep cap (Event.broadcast m)).closes = [s] ∧
    (∀ m', (s, m') ∉ (st.startStep cap (Event.broadcast m)).deliveries) ∧
    (∀ c ∈ st.clients, c ≠ s →
      (st.startStep cap (Event.broadcast m)).deliveries.count (c, m) = 1) ∧
    (st.startStep cap (Event.broadcast m)).st.startStep cap (Event.unregister s) =
      ⟨(st.startStep cap (Event.broadcast m)).st, [], [], []⟩ := by
  obtain ⟨h1, h2, h3⟩ :=
    broadcastLoop_single_full cap m s st.clients st.queue hnd hs hfull hroom
  have hclients : (st.startStep cap (Event.broadcast m)).st.clients =
      st.clients.erase s := h1
  refine ⟨h1, h2, ?_, ?_, ?_⟩
  · intro m' hmem
    have hmem2 : (s, m') ∈ (broadcastLoop cap m st.clients st.queue).2.2.1 := hmem
    rw [h3] at hmem2
    obtain ⟨x, hx, hxe⟩ := List.mem_map.mp hmem2
    obtain ⟨rfl, -⟩ := Prod.mk.injEq .. ▸ hxe
    exact hnd.not_mem_erase hx
  · intro c hc hcs
    show List.count (c, m) (broadcastLoop cap m st.clients st.queue).2.2.1 = 1
    rw [h3, count_pair_map m c (st.clients.erase s),
      List.count_erase_of_ne hcs]
    exact List.count_eq_one_of_mem hnd hc
  · have hnotmem : s ∉ (st.startStep cap (Event.broadcast m)).st.clients := by
      rw [hclients]
      exact hnd.not_mem_erase
    exact startStep_unregister_of_not_mem _ cap s hnotmem

/-- Witness for C5 amended on `stressState` (N = 3, peer 0 saturated at
capacity 1): the broadcast removes exactly peer 0, peers 1 and 2 each get one
copy, and the follow-up unregister of peer 0 is a no-op. -/
theorem claim5_witness :
    (stressState.startStep 1 (Event.broadcast stressMsg)).st.clients =
      stressState.clients.erase 0 ∧
    (stressState.startStep 1 (Event.broadcast stressMsg)).closes = [0] ∧
    (∀ m', (0, m') ∉ (stressState.startStep 1 (Event.broadcast stressMsg)).deliveries) ∧
    (∀ c ∈ stressState.clients, c ≠ 0 →
      (stressState.startStep 1 (Event.broadcast stressMsg)).deliveries.count
        (c, stressMsg) = 1) ∧
    (stressState.startStep 1 (Event.broadcast stressMsg)).st.startStep 1
        (Event.unregister 0) =
      ⟨(stressState.startStep 1 (Event.broadcast stressMsg)).st, [], [], []⟩ :=
  claim5_amended 1 stressState stressMsg 0 (by decide) (by decide) (by decide)
    (by decide)

/-- Claim C6, confirmed: the fan-out `ClientManager.send` with excluded peer
`P` never touches `P`'s outbound queue and puts nothing addressed to `P` in
the delivery log, while every other peer of the set gets exactly one copy of
the envelope appended to its queue. -/
theorem claim6_exclusion (cap : Nat) (st : ClientManager) (m : Message)
    (P : Client) (hnd : st.clients.Nodup) :
    (st.send cap m P).1 P = st.queue P ∧
    (∀ m', (P, m') ∉ (st.send cap m P).2.1) ∧
    (∀ c ∈ st.clients, c ≠ P →
      (st.send cap m P).2.1.count (c, m) = 1 ∧
      (st.send cap m P).1 c = st.queue c ++ [m]) := by
  refine ⟨sendLoop_queue_ignore cap m P st.clients st.queue, ?_, ?_⟩
  · intro m' hmem
    exact (sendLoop_deliveries_mem cap m P P m' st.clients st.queue hmem).2.1 rfl
  · intro c hc hcP
    exact ⟨sendLoop_deliveries_count cap m P c st.clients st.queue hnd hc hcP,
      sendLoop_queue_of_mem cap m P c st.clients st.queue hnd hc hcP⟩

/-- Witness for C6 on `smallState`, excluding peer 0: peer 0's queue is
untouched and receives nothing, peer 1 gets exactly one copy. -/
theorem claim6_witness :
    (smallState.send 2 stressMsg 0).1 0 = smallState.queue 0 ∧
    (∀ m', (0, m') ∉ (smallState.send 2 stressMsg 0).2.1) ∧
    (∀ c ∈ smallState.clients, c ≠ 0 →
      (smallState.send 2 stressMsg 0).2.1.count (c, stressMsg) = 1 ∧
      (smallState.send 2 stressMsg 0).1 c = smallState.queue c ++ [stressMsg]) :=
  claim6_exclusion 2 smallState stressMsg 0 (by decide)

/-- Claim C7, confirmed: after an admission the new peer is a member of the
peer set, and the connection-announcement fan-out — which iterates over the
*post-insertion* set, so admission completes before the fan-out begins —
delivers `connectAnnouncement` exactly once to every admitted peer other than
the newly admitted one, and nothing at all to the new peer itself. -/
theorem claim7_admission (cap : Nat) (st : ClientManager) (c : Client)
    (hnd : st.clients.Nodup) :
    c ∈ (st.startStep cap (Event.register c)).st.clients ∧
    (∀ p m', (p, m') ∈ (st.startStep cap (Event.register c)).deliveries →
      p ∈ (st.startStep cap (Event.register c)).st.clients ∧ p ≠ c ∧
        m' = connectAnnouncement) ∧
    (∀ p ∈ (st.startStep cap (Event.register c)).st.clients, p ≠ c →
      (st.startStep cap (Event.register c)).deliveries.count
        (p, connectAnnouncement) = 1) := by
  have hnd' : (st.startStep cap (Event.register c)).st.clients.Nodup :=
    startStep_clients_nodup st cap (Event.register c) hnd
  have hmemc : c ∈ (st.startStep cap (Event.register c)).st.clients := by
    show c ∈ (if c ∈ st.clients then st.clients else c :: st.clients)
    split
    · assumption
    · exact List.mem_cons_self ..
  refine ⟨hmemc, ?_, ?_⟩
  · intro p m' hmem
    have hmem2 : (p, m') ∈ (sendLoop cap connectAnnouncement c
        (if c ∈ st.clients then st.clients else c :: st.clients) st.queue).2.1 := hmem
    obtain ⟨h1, h2, h3⟩ :=
      sendLoop_deliveries_mem cap connectAnnouncement c p m' _ _ hmem2
    exact ⟨h1, h2, h3⟩
  · intro p hp hpc
    have hp2 : p ∈ (if c ∈ st.clients then st.clients else c :: st.clients) := hp
    have hnd2 : (if c ∈ st.clients then st.clients else c :: st.clients).Nodup := hnd'
    show List.count (p, connectAnnouncement) (sendLoop cap connectAnnouncement c
      (if c ∈ st.clients then st.clients else c :: st.clients) st.queue).2.1 = 1
    exact sendLoop_deliveries_count cap connectAnnouncement c p _ st.queue hnd2 hp2 hpc

/-- Witness for C7: client 2 registers on `smallState`; it is in the set
afterwards, every delivery of the step goes to an older member with the
connection announcement, and members 0 and 1 each get exactly one copy. -/
theorem claim7_witness :
    2 ∈ (smallState.startStep 2 (Event.register 2)).st.clients ∧
    (∀ p m', (p, m') ∈ (smallState.startStep 2 (Event.register 2)).deliveries →
      p ∈ (smallState.startStep 2 (Event.register 2)).st.clients ∧ p ≠ 2 ∧
        m' = connectAnnouncement) ∧
    (∀ p ∈ (smallState.startStep 2 (Event.register 2)).st.clients, p ≠ 2 →
      (smallState.startStep 2 (Event.register 2)).deliveries.count
        (p, connectAnnouncement) = 1) :=
  claim7_admission 2 smallState 2 (by decide)

/-- Claim C8, confirmed: the write loop's behaviour is independent of the
transport write results (the source discards `WriteMessage`'s error), it
never emits a remove request towards the hub — so no transport write failure
changes the peer set — and it terminates exactly when a receipt from its
outbound queue reports the channel closed by the hub. -/
theorem claim8_write_loop (wres wres' : Message → Bool)
    (rs : List (Option Message)) :
    Client.write wres rs = Client.write wres' rs ∧
    WriteAction.removeRequest ∉ (Client.write wres rs).1 ∧
    ((Client.write wres rs).2 = true ↔ none ∈ rs) := by
  induction rs with
  | nil =>
    refine ⟨rfl, ?_, ?_⟩
    · simp [Client.write]
    · simp [Client.write]
  | cons o rest ih =>
    match o with
    | none =>
      refine ⟨rfl, ?_, ?_⟩
      · simp [Client.write]
      · simp [Client.write]
    | some m =>
      refine ⟨?_, ?_, ?_⟩
      · simp only [Client.write]
        rw [ih.1]
      · simp only [Client.write, List.mem_cons]
        rintro (h | h)
        · exact WriteAction.noConfusion h
        · exact ih.2.1 h
      · simp only [Client.write]
        rw [ih.2.2]
        simp

/-- Claim C9, as stated, is false: the source builds the announcements with a
leading slash — `Message{Content: "/A new socket has connected."}` and
`Message{Content: "/A socket has disconnected."}` — so the content fields are
not the claimed "A new socket has connected." and "A socket has
disconnected.". -/
theorem claim9_counterexample :
    connectAnnouncement.Content ≠ "A new socket has connected." ∧
    disconnectAnnouncement.Content ≠ "A socket has disconnected." := by
  exact ⟨by decide, by decide⟩

/-- Claim C9, amended: the connection announcement's content is
"/A new socket has connected." and the disconnection announcement's content
is "/A socket has disconnected." (each with a leading slash); neither sets a
sender or recipient, so with `omitempty` the serialized envelopes carry only
the content field; and these are exactly the envelopes every admission or
disconnect fan-out delivers. -/
theorem claim9_amended :
    connectAnnouncement.Content = "/A new socket has connected." ∧
    connectAnnouncement.Sender = "" ∧
    connectAnnouncement.Recipient = "" ∧
    disconnectAnnouncement.Content = "/A socket has disconnected." ∧
    disconnectAnnouncement.Sender = "" ∧
    disconnectAnnouncement.Recipient = "" ∧
    marshalMessage connectAnnouncement =
      "\x7b\"content\":\"/A new socket has connected.\"\x7d" ∧
    marshalMessage disconnectAnnouncement =
      "\x7b\"content\":\"/A socket has disconnected.\"\x7d" ∧
    (∀ (cap : Nat) (st : ClientManager) (c p : Client) (m' : Message),
      (p, m') ∈ (st.startStep cap (Event.register c)).deliveries →
        m' = connectAnnouncement) ∧
    (∀ (cap : Nat) (st : ClientManager) (c p : Client) (m' : Message),
      (p, m') ∈ (st.startStep cap (Event.unregister c)).deliveries →
        m' = disconnectAnnouncement) := by
  refine ⟨rfl, rfl, rfl, rfl, rfl, rfl, rfl, rfl, ?_, ?_⟩
  · intro cap st c p m' hmem
    have hmem2 : (p, m') ∈ (sendLoop cap connectAnnouncement c
        (if c ∈ st.clients then st.clients else c :: st.clients) st.queue).2.1 := hmem
    exact (sendLoop_deliveries_mem cap connectAnnouncement c p m' _ _ hmem2).2.2
  · intro cap st c p m' hmem
    by_cases hc : c ∈ st.clients
    · have hd : (st.startStep cap (Event.unregister c)).deliveries =
          (sendLoop cap disconnectAnnouncement c (st.clients.erase c) st.queue).2.1 := by
        simp [ClientManager.startStep, hc]
      rw [hd] at hmem
      exact (sendLoop_deliveries_mem cap disconnectAnnouncement c p m' _ _ hmem).2.2
    · have hd : (st.startStep cap (Event.unregister c)).deliveries = [] := by
        simp [ClientManager.startStep, hc]
      rw [hd] at hmem
      exact absurd hmem (List.not_mem_nil _)

/-- Claim C10, confirmed: over any request trace in which a given peer is
registered at most once (as in the program, where each connection constructs
a fresh client), that peer's `send` channel is closed at most once — the two
closing paths (the membership-guarded unregister handler and the
full-queue branch of broadcast) both delete the peer from the set in the
same step, so a second close cannot fire. -/
theorem claim10_close_at_most_once (cap : Nat) (es : List Event) (p : Client)
    (h : es.count (Event.register p) ≤ 1) :
    (initManager.run cap es).st.closedCnt p ≤ 1 := by
  have hb := run_close_register_bound cap p es initManager
  have h0 : initManager.closedCnt p = 0 := rfl
  have h1 : initManager.clients.count p = 0 := rfl
  omega

/-- Witness for C10: client 0 registers once, is closed by a broadcast at
capacity 0, and the later unregister is a guarded no-op — the close counter
stays at most 1. -/
theorem claim10_witness :
    (initManager.run 0
      [Event.register 0, Event.broadcast { Content := "x" },
        Event.unregister 0]).st.closedCnt 0 ≤ 1 :=
  claim10_close_at_most_once 0
    [Event.register 0, Event.broadcast { Content := "x" }, Event.unregister 0] 0
    (by decide)
